/-
Verification of the FAISS-backed image-retrieval system.

Shallow embedding of the code in `src/backend/faiss_index.py`,
`src/backend/duckduckgo_cbir.py` and `src/build_index.py`.

Modelling conventions:
* Python floats are modelled exactly as rationals (ℚ); feature vectors are
  `List ℚ`.
* `faiss.IndexFlatL2` (an external library) is modelled by its documented
  semantics: it stores vectors in insertion slots `0, 1, ...`, its `search`
  returns the k nearest stored vectors by *squared* Euclidean distance in
  ascending order, with ties broken deterministically by the lower slot id
  first, and its `add` raises when a vector does not have exactly `d`
  components, leaving the index unchanged.
* A Python dict is modelled as an insertion-ordered association list; `d[k]=v`
  updates in place when the key is present and appends otherwise; `d.get`
  looks the key up.
-/
import Mathlib

namespace ImageRetrieval

/-- `config.py`: `FEATURE_DIMENSION = 4096`. -/
def FEATURE_DIMENSION : Nat := 4096

/-- A feature vector: a list of rationals (exact model of a float vector). -/
abbrev Vec := List ℚ

/-- Squared Euclidean distance between two vectors, the metric computed by
`faiss.IndexFlatL2` and returned in its distance array. -/
def sqDist (u v : Vec) : ℚ := (List.zipWith (fun a b => (a - b) ^ 2) u v).sum

/-- A value of the `metadata` dict in `FAISSIndex`: the code stores
`{'url': url, 'index': slot}`. -/
structure MetaValue where
  url : String
  index : Nat
deriving DecidableEq, Repr

/-- State of `FAISSIndex` (`src/backend/faiss_index.py`): `dimension` models
the faiss index dimension `self.index.d` (equal to the config dimension on
fresh initialization), `vectors` the stored vectors slot by slot
(`self.index`), `metadata` the Python dict `self.metadata`. -/
structure FAISSIndex where
  dimension : Nat
  vectors : List Vec
  metadata : List (Nat × MetaValue)
deriving DecidableEq, Repr

/-- Ordering used by the faiss model: ascending squared distance, ties broken
by the lower slot id. -/
def distLE (a b : ℚ × Nat) : Prop := a.1 < b.1 ∨ (a.1 = b.1 ∧ a.2 ≤ b.2)

instance : DecidableRel distLE := fun a b => by
  unfold distLE; infer_instance

instance : IsTotal (ℚ × Nat) distLE where
  total a b := by
    unfold distLE
    rcases lt_trichotomy a.1 b.1 with h | h | h
    · exact Or.inl (Or.inl h)
    · rcases Nat.le_total a.2 b.2 with h2 | h2
      · exact Or.inl (Or.inr ⟨h, h2⟩)
      · exact Or.inr (Or.inr ⟨h.symm, h2⟩)
    · exact Or.inr (Or.inl h)

instance : IsTrans (ℚ × Nat) distLE where
  trans a b c hab hbc := by
    unfold distLE at *
    rcases hab with h1 | ⟨h1, h1'⟩
    · rcases hbc with h2 | ⟨h2, _⟩
      · exact Or.inl (h1.trans h2)
      · exact Or.inl (h2 ▸ h1)
    · rcases hbc with h2 | ⟨h2, h2'⟩
      · exact Or.inl (h1 ▸ h2)
      · exact Or.inr ⟨h1.trans h2, h1'.trans h2'⟩

/-- Model of `faiss.IndexFlatL2.search` on the stored vectors `vecs` with
query `q`, returning `k` hits `(squared-distance, slot)` sorted ascending by
distance, ties by lower slot. -/
def faissSearch (vecs : List Vec) (q : Vec) (k : Nat) : List (ℚ × Nat) :=
  (List.insertionSort distLE (vecs.enum.map fun p => (sqDist q p.2, p.1))).take k

/-- One element of the list returned by `FAISSIndex.search`. -/
structure SearchResult where
  url : String
  similarity : ℚ
  distance : ℚ
deriving DecidableEq, Repr

/-- `FAISSIndex.search`: empty index returns `[]`; otherwise queries faiss for
`min k ntotal` hits and converts each to a result dict, computing
`similarity = max(0, 1 - (distance ** 2) / 2)` on the faiss distance and
looking the slot up in `metadata` with `''` as the default url. (The
`idx == -1` guard in the code is never triggered by an exact flat index
queried with `k ≤ ntotal` and is dropped.) -/
def FAISSIndex.search (st : FAISSIndex) (q : Vec) (k : Nat) : List SearchResult :=
  if st.vectors.length = 0 then []
  else
    (faissSearch st.vectors q (min k st.vectors.length)).map fun p =>
      { url := ((st.metadata.lookup p.2).map MetaValue.url).getD ""
        similarity := max 0 (1 - p.1 ^ 2 / 2)
        distance := p.1 }

/-- Python dict assignment `m[k] = v`: update in place when present, else
append. -/
def dictInsert (m : List (Nat × MetaValue)) (k : Nat) (v : MetaValue) :
    List (Nat × MetaValue) :=
  if (m.lookup k).isSome then
    m.map fun p => if p.1 = k then (k, v) else p
  else m ++ [(k, v)]

/-- `FAISSIndex.add_features`: returns on empty input; `faiss.Index.add`
raises (modelled as `.error`, state unchanged) when some vector does not have
exactly `dimension` components; otherwise appends the vectors and records one
metadata entry per url at key `current_size + i`. No check relates the number
of vectors to the number of urls. -/
def FAISSIndex.add_features (st : FAISSIndex) (features : List Vec)
    (image_urls : List String) : Except String FAISSIndex :=
  if features.length = 0 then .ok st
  else if features.any (fun v => v.length != st.dimension) then
    .error "faiss add: vector dimension mismatch"
  else .ok { st with
    vectors := st.vectors ++ features
    metadata :=
      (image_urls.enum.map fun p =>
          (st.vectors.length + p.1, MetaValue.mk p.2 (st.vectors.length + p.1))).foldl
        (fun m kv => dictInsert m kv.1 kv.2) st.metadata }

/-- `FAISSIndex.get_index_size`: `self.index.ntotal`. -/
def FAISSIndex.get_index_size (st : FAISSIndex) : Nat := st.vectors.length

/-- Python `str` on a natural number: the decimal digit string. -/
def pyStr (n : Nat) : String :=
  if n = 0 then "0" else ⟨(Nat.digits 10 n).reverse.map Nat.digitChar⟩

/-- Python `int` on a decimal digit string (the only inputs occurring in
`FAISSIndex.load`, whose metadata keys were written by `str`). -/
def pyInt (s : String) : Nat :=
  Nat.ofDigits 10 ((s.data.map fun c => c.toNat - 48).reverse)

/-- What `FAISSIndex.save` writes: the faiss index file (`faiss.write_index`
persists the index dimension and the stored vectors exactly) and the metadata
JSON file, whose keys are the dict keys converted to strings. -/
def FAISSIndex.save (st : FAISSIndex) :
    (Nat × List Vec) × List (String × MetaValue) :=
  ((st.dimension, st.vectors), st.metadata.map fun p => (pyStr p.1, p.2))

/-- `FAISSIndex.load`: if the index file exists, `faiss.read_index` restores
the persisted index (dimension and vectors); otherwise `_initialize_index()`
creates a fresh empty index of the config dimension (`self.dimension` is set
in `__init__` and never reassigned, so it is always `FEATURE_DIMENSION`). If
the metadata file exists its keys are converted back with `int`, otherwise
the metadata dict is emptied. -/
def FAISSIndex.load (_st : FAISSIndex) (indexFile : Option (Nat × List Vec))
    (metadataFile : Option (List (String × MetaValue))) : FAISSIndex :=
  { dimension := match indexFile with
      | some f => f.1
      | none => FEATURE_DIMENSION
    vectors := match indexFile with
      | some f => f.2
      | none => []
    metadata := match metadataFile with
      | some m => m.map fun p => (pyInt p.1, p.2)
      | none => [] }

/-- Python `round(x, 3)`: rounding to three decimal places (ties modelled by
round-half-up; only monotonicity matters to the claims). -/
def pyRound3 (x : ℚ) : ℚ := (round (1000 * x) : ℤ) / 1000

/-- One element of the list returned by
`DuckDuckGoCBIR.search_similar_images`: `{'url': ..., 'similarity': ...}`. -/
structure FormattedResult where
  url : String
  similarity : ℚ
deriving DecidableEq, Repr

/-- Comparison performed by `results.sort(key=lambda x: x['similarity'],
reverse=True)`: similarity descending. -/
def simGE (a b : SearchResult) : Prop := b.similarity ≤ a.similarity

instance : DecidableRel simGE := fun a b => by
  unfold simGE; infer_instance

instance : IsTotal SearchResult simGE where
  total a b := le_total b.similarity a.similarity

instance : IsTrans SearchResult simGE where
  trans _ _ _ hab hbc := le_trans hbc hab

/-- `DuckDuckGoCBIR.search_similar_images`: query the index, stable-sort the
results by similarity descending (CPython `list.sort` is stable and
`reverse=True` keeps the original order of equal keys, as insertion sort
does), round each similarity to 3 decimals, and truncate to `k`. -/
def search_similar_images (st : FAISSIndex) (q : Vec) (k : Nat) :
    List FormattedResult :=
  ((List.insertionSort simGE (st.search q k)).map fun r =>
      FormattedResult.mk r.url (pyRound3 r.similarity)).take k

/-- `DuckDuckGoCBIR.index_images_from_query`, after the candidate urls have
been obtained: each url is submitted exactly once to
`_fetch_and_validate_image` (modelled by `fetch`, which returns `none` when
any stage — download, decode, validation, extraction — fails; failures are
caught inside that helper and never retried). `as_completed` yields the
results in a nondeterministic completion order, modelled by the explicit
`order` list, a permutation of the submitted urls. The successes are batched
into a single `add_features` call and their count is returned; the outer
`except` returns 0 (state unchanged, since faiss `add` raises before
mutating) if the bulk add raises. -/
def index_images_from_query (st : FAISSIndex) (image_urls : List String)
    (fetch : String → Option Vec) (order : List String) : FAISSIndex × Nat :=
  if image_urls.isEmpty then (st, 0)
  else
    let valid := order.filterMap fun u => (fetch u).map fun f => (f, u)
    if valid.isEmpty then (st, 0)
    else
      match st.add_features (valid.map Prod.fst) (valid.map Prod.snd) with
      | .ok st2 => (st2, valid.length)
      | .error _ => (st, 0)

/-- Python `s.endswith(t)`: `t` is a suffix of `s` (case-sensitive). -/
def pyEndsWith (s t : String) : Bool := t.data.isSuffixOf s.data

/-- Python `s.lower()` (ASCII model, enough for file extensions). -/
def pyLower (s : String) : String := ⟨s.data.map Char.toLower⟩

/-- The filter in `build_dataset_index`
(`src/build_index.py`): `f.endswith(('.jpg', '.jpeg', '.png'))`. -/
def isImageFile (f : String) : Bool :=
  pyEndsWith f ".jpg" || pyEndsWith f ".jpeg" || pyEndsWith f ".png"

/-- The per-category selection in `build_dataset_index`: keep the directory
entries accepted by the extension filter. -/
def selectCategoryImages (files : List String) : List String :=
  files.filter isImageFile

/-- Modelled from the spec: the selection rule C9 asserts — the extension is
jpg, jpeg or png compared case-insensitively (refinement comparison
definition; the source's rule is `isImageFile`). -/
def claimedImageFile (f : String) : Bool :=
  pyEndsWith (pyLower f) ".jpg" || pyEndsWith (pyLower f) ".jpeg" ||
    pyEndsWith (pyLower f) ".png"

/-- `os.path.join` as used in `build_dataset_index` (second argument is a
plain file or directory name, so it is root-relative concatenation). -/
def pyJoin (a b : String) : String := a ++ "/" ++ b

/-- `os.path.relpath(p, root)` for the only use in `build_dataset_index`,
where `p` is always of the form `root ++ "/" ++ rest`: drop the root and the
separator. -/
def pyRelpath (p root : String) : String := ⟨p.data.drop (root.data.length + 1)⟩

/-- The identifiers (`urls_list` entries) that `build_dataset_index` records
for one category: for every selected file, the path
`os.path.join(os.path.join(DATASET_FOLDER, category), img)` made relative to
the dataset root. -/
def buildIdentifiers (root category : String) (files : List String) :
    List String :=
  (selectCategoryImages files).map fun img =>
    pyRelpath (pyJoin (pyJoin root category) img) root

/-! ### Lemmas about the dict model -/

theorem lookup_cons_self {a : Nat} {b : MetaValue} {t : List (Nat × MetaValue)} :
    ((a, b) :: t).lookup a = some b := by
  simp [List.lookup]

theorem lookup_cons_of_ne {a k : Nat} (h : k ≠ a) {b : MetaValue}
    {t : List (Nat × MetaValue)} : ((a, b) :: t).lookup k = t.lookup k := by
  simp [List.lookup, beq_false_of_ne h]

theorem lookup_append_of_eq_none {m l : List (Nat × MetaValue)} {k : Nat}
    (h : m.lookup k = none) : (m ++ l).lookup k = l.lookup k := by
  induction m with
  | nil => simp
  | cons p t ih =>
    obtain ⟨a, b⟩ := p
    by_cases hk : k = a
    · subst hk; simp [lookup_cons_self] at h
    · rw [lookup_cons_of_ne hk] at h
      rw [List.cons_append, lookup_cons_of_ne hk]
      exact ih h

theorem lookup_map_update_self : ∀ (m : List (Nat × MetaValue)) (k : Nat)
    (v : MetaValue), (m.lookup k).isSome →
    ((m.map fun p => if p.1 = k then (k, v) else p).lookup k) = some v := by
  intro m k v h
  induction m with
  | nil => simp at h
  | cons p t ih =>
    obtain ⟨a, b⟩ := p
    by_cases hk : a = k
    · subst hk
      simp only [List.map_cons, eq_self_iff_true, if_true]
      exact lookup_cons_self
    · have hk' : k ≠ a := fun e => hk e.symm
      simp only [List.map_cons, if_neg hk]
      rw [lookup_cons_of_ne hk'] at h ⊢
      exact ih h

theorem lookup_dictInsert_self (m : List (Nat × MetaValue)) (k : Nat)
    (v : MetaValue) : (dictInsert m k v).lookup k = some v := by
  unfold dictInsert
  by_cases h : (m.lookup k).isSome
  · rw [if_pos h]
    exact lookup_map_update_self m k v h
  · rw [if_neg h]
    rw [lookup_append_of_eq_none (Option.not_isSome_iff_eq_none.mp h)]
    simp [List.lookup]

theorem lookup_map_update_ne : ∀ (m : List (Nat × MetaValue)) {k k' : Nat}
    (v : MetaValue), k' ≠ k →
    ((m.map fun p => if p.1 = k then (k, v) else p).lookup k') = m.lookup k' := by
  intro m k k' v hne
  induction m with
  | nil => simp
  | cons p t ih =>
    obtain ⟨a, b⟩ := p
    by_cases ha : a = k
    · subst ha
      simp only [List.map_cons, eq_self_iff_true, if_true]
      rw [lookup_cons_of_ne hne, lookup_cons_of_ne hne]
      exact ih
    · simp only [List.map_cons, if_neg ha]
      by_cases hk' : k' = a
      · subst hk'
        rw [lookup_cons_self, lookup_cons_self]
      · rw [lookup_cons_of_ne hk', lookup_cons_of_ne hk']
        exact ih

theorem lookup_append_single_ne : ∀ (m : List (Nat × MetaValue)) {k k' : Nat}
    (v : MetaValue), k' ≠ k → (m ++ [(k, v)]).lookup k' = m.lookup k' := by
  intro m k k' v hne
  induction m with
  | nil => simp [List.nil_append, lookup_cons_of_ne hne]
  | cons p t ih =>
    obtain ⟨a, b⟩ := p
    by_cases hk' : k' = a
    · subst hk'
      rw [List.cons_append, lookup_cons_self, lookup_cons_self]
    · rw [List.cons_append, lookup_cons_of_ne hk', lookup_cons_of_ne hk']
      exact ih

theorem lookup_dictInsert_ne (m : List (Nat × MetaValue)) {k k' : Nat}
    (v : MetaValue) (hne : k' ≠ k) :
    (dictInsert m k v).lookup k' = m.lookup k' := by
  unfold dictInsert
  by_cases h : (m.lookup k).isSome
  · rw [if_pos h]
    exact lookup_map_update_ne m v hne
  · rw [if_neg h]
    exact lookup_append_single_ne m v hne

theorem lookup_foldl_dictInsert_of_not_mem :
    ∀ (pairs m : List (Nat × MetaValue)) {k : Nat}, k ∉ pairs.map Prod.fst →
    ((pairs.foldl (fun acc kv => dictInsert acc kv.1 kv.2) m).lookup k) =
      m.lookup k := by
  intro pairs
  induction pairs with
  | nil => intro m k _; rfl
  | cons p t ih =>
    intro m k hk
    simp only [List.map_cons, List.mem_cons, not_or] at hk
    rw [List.foldl_cons, ih _ hk.2]
    exact lookup_dictInsert_ne m p.2 hk.1

theorem lookup_foldl_dictInsert_of_mem :
    ∀ (pairs m : List (Nat × MetaValue)) {k : Nat} {v : MetaValue},
    (pairs.map Prod.fst).Nodup → (k, v) ∈ pairs →
    ((pairs.foldl (fun acc kv => dictInsert acc kv.1 kv.2) m).lookup k) =
      some v := by
  intro pairs
  induction pairs with
  | nil => intro m k v _ h; simp at h
  | cons p t ih =>
    intro m k v hnd hmem
    simp only [List.map_cons, List.nodup_cons] at hnd
    rw [List.foldl_cons]
    rcases List.mem_cons.mp hmem with he | ht
    · subst he
      rw [lookup_foldl_dictInsert_of_not_mem t _ hnd.1]
      exact lookup_dictInsert_self m k v
    · exact ih _ hnd.2 ht

/-- The key/value pairs that a successful `add_features` records, in loop
order. -/
def newMetaPairs (base : Nat) (image_urls : List String) :
    List (Nat × MetaValue) :=
  image_urls.enum.map fun p => (base + p.1, MetaValue.mk p.2 (base + p.1))

theorem newMetaPairs_map_fst (base : Nat) (image_urls : List String) :
    (newMetaPairs base image_urls).map Prod.fst =
      (List.range image_urls.length).map (base + ·) := by
  unfold newMetaPairs
  rw [List.map_map]
  have : (Prod.fst ∘ fun p : Nat × String =>
      (base + p.1, MetaValue.mk p.2 (base + p.1))) = (fun p => base + p.1) := rfl
  rw [this]
  have h2 : (fun p : Nat × String => base + p.1) =
      ((base + ·) ∘ Prod.fst) := rfl
  rw [h2, ← List.map_map, List.enum_map_fst]

theorem newMetaPairs_nodup_fst (base : Nat) (image_urls : List String) :
    ((newMetaPairs base image_urls).map Prod.fst).Nodup := by
  rw [newMetaPairs_map_fst]
  exact (List.nodup_range _).map fun a b h => by omega

theorem add_features_nil (st : FAISSIndex) (image_urls : List String) :
    st.add_features [] image_urls = .ok st := rfl

theorem add_features_pos (st : FAISSIndex) (features : List Vec)
    (image_urls : List String) (hne : features ≠ [])
    (hdim : ∀ v ∈ features, v.length = st.dimension) :
    st.add_features features image_urls = .ok
      { dimension := st.dimension
        vectors := st.vectors ++ features
        metadata := (newMetaPairs st.vectors.length image_urls).foldl
          (fun m kv => dictInsert m kv.1 kv.2) st.metadata } := by
  unfold FAISSIndex.add_features
  have h0 : features.length ≠ 0 := fun h => hne (List.length_eq_zero.mp h)
  rw [if_neg h0]
  · have hany : features.any (fun v => v.length != st.dimension) = false := by
      rw [List.any_eq_false]
      intro v hv
      simpa using hdim v hv
    rw [hany]
    rfl

theorem add_features_lookup (st : FAISSIndex) (features : List Vec)
    (image_urls : List String) (st' : FAISSIndex)
    (h : st.add_features features image_urls = .ok st')
    (hdim : ∀ v ∈ features, v.length = st.dimension)
    (hpos : features.length ≠ 0) (i : Nat) (hi : i < image_urls.length) :
    st'.metadata.lookup (st.vectors.length + i) =
      some (MetaValue.mk (image_urls.get ⟨i, hi⟩) (st.vectors.length + i)) := by
  rw [add_features_pos st features image_urls
    (fun h => hpos (by rw [h]; rfl)) hdim] at h
  cases h
  apply lookup_foldl_dictInsert_of_mem _ _ (newMetaPairs_nodup_fst _ _)
  have hlen : i < (newMetaPairs st.vectors.length image_urls).length := by
    unfold newMetaPairs
    simpa using hi
  have hget : (newMetaPairs st.vectors.length image_urls).get ⟨i, hlen⟩ =
      (st.vectors.length + i,
        MetaValue.mk (image_urls.get ⟨i, hi⟩) (st.vectors.length + i)) := by
    unfold newMetaPairs
    simp [List.getElem_enum]
  rw [← hget]
  exact List.get_mem _ _ hlen

/-! ### Lemmas about the faiss search model -/

theorem zipWith_sq_nonneg : ∀ (u v : Vec),
    ∀ x ∈ List.zipWith (fun a b => (a - b) ^ 2) u v, 0 ≤ x
  | [], _ => by simp
  | _ :: _, [] => by simp
  | a :: u', b :: v' => by
    intro x hx
    rcases List.mem_cons.mp hx with h | h
    · subst h; positivity
    · exact zipWith_sq_nonneg u' v' x h

theorem sqDist_nonneg (u v : Vec) : 0 ≤ sqDist u v :=
  List.sum_nonneg (zipWith_sq_nonneg u v)

theorem length_faissSearch (vecs : List Vec) (q : Vec) (k : Nat) :
    (faissSearch vecs q k).length = min k vecs.length := by
  unfold faissSearch
  rw [List.length_take, (List.perm_insertionSort distLE _).length_eq,
    List.length_map, List.enum_length]

theorem length_search (st : FAISSIndex) (q : Vec) (k : Nat) :
    (st.search q k).length = min k st.vectors.length := by
  unfold FAISSIndex.search
  by_cases h : st.vectors.length = 0
  · rw [if_pos h]
    simp [h]
  · rw [if_neg h, List.length_map, length_faissSearch]
    omega

theorem faissSearch_dist_nonneg (vecs : List Vec) (q : Vec) (k : Nat)
    {x : ℚ × Nat} (hx : x ∈ faissSearch vecs q k) : 0 ≤ x.1 := by
  unfold faissSearch at hx
  have hx' := (List.perm_insertionSort distLE _).mem_iff.mp
    (List.mem_of_mem_take hx)
  rcases List.mem_map.mp hx' with ⟨p, _, rfl⟩
  exact sqDist_nonneg q p.2

theorem faissSearch_sorted (vecs : List Vec) (q : Vec) (k : Nat) :
    (faissSearch vecs q k).Pairwise distLE :=
  List.Pairwise.sublist (List.take_sublist _ _)
    (List.sorted_insertionSort distLE _)

theorem faissSearch_slots_ne (vecs : List Vec) (q : Vec) (k : Nat) :
    (faissSearch vecs q k).Pairwise fun a b => a.2 ≠ b.2 := by
  unfold faissSearch
  apply List.Pairwise.sublist (List.take_sublist _ _)
  apply ((List.perm_insertionSort distLE _).pairwise_iff fun hab => Ne.symm hab).mpr
  rw [List.pairwise_map]
  have h1 : (vecs.enum.map Prod.fst).Pairwise (· < ·) := by
    rw [List.enum_map_fst]
    exact List.pairwise_lt_range _
  rw [List.pairwise_map] at h1
  exact h1.imp fun h => Nat.ne_of_lt h

/-- The hit list of the faiss model is strictly ordered: ascending distance,
with ties in strictly increasing slot order. -/
theorem faissSearch_strict (vecs : List Vec) (q : Vec) (k : Nat) :
    (faissSearch vecs q k).Pairwise fun a b =>
      a.1 < b.1 ∨ (a.1 = b.1 ∧ a.2 < b.2) := by
  refine ((faissSearch_sorted vecs q k).and
    (faissSearch_slots_ne vecs q k)).imp ?_
  rintro a b ⟨hle, hne⟩
  rcases hle with h | ⟨heq, hle⟩
  · exact Or.inl h
  · exact Or.inr ⟨heq, lt_of_le_of_ne hle hne⟩

theorem search_pairwise (st : FAISSIndex) (q : Vec) (k : Nat) :
    (st.search q k).Pairwise fun r1 r2 =>
      r2.similarity ≤ r1.similarity ∧ r1.distance ≤ r2.distance := by
  unfold FAISSIndex.search
  split
  · exact List.Pairwise.nil
  · rw [List.pairwise_map]
    apply (faissSearch_sorted st.vectors q (min k st.vectors.length)).imp_of_mem
    intro a b ha hb hab
    have h0a : 0 ≤ a.1 := faissSearch_dist_nonneg _ _ _ ha
    have hle : a.1 ≤ b.1 := by
      rcases hab with h | ⟨h, _⟩
      · exact le_of_lt h
      · exact le_of_eq h
    refine ⟨max_le_max le_rfl ?_, hle⟩
    have hsq : a.1 ^ 2 ≤ b.1 ^ 2 := pow_le_pow_left₀ h0a hle 2
    linarith

theorem pyRound3_mono {a b : ℚ} (h : a ≤ b) : pyRound3 a ≤ pyRound3 b := by
  unfold pyRound3
  have hr : round (1000 * a) ≤ round (1000 * b) := by
    rw [round_eq, round_eq]
    exact Int.floor_mono (by linarith)
  have h2 : ((round (1000 * a) : ℤ) : ℚ) ≤ ((round (1000 * b) : ℤ) : ℚ) := by
    exact_mod_cast hr
  linarith

theorem search_sorted_simGE (st : FAISSIndex) (q : Vec) (k : Nat) :
    List.Sorted simGE (st.search q k) :=
  (search_pairwise st q k).imp fun h => h.1

theorem search_similar_images_pairwise (st : FAISSIndex) (q : Vec) (k : Nat) :
    (search_similar_images st q k).Pairwise fun r1 r2 =>
      r2.similarity ≤ r1.similarity := by
  unfold search_similar_images
  apply List.Pairwise.sublist (List.take_sublist _ _)
  rw [(search_sorted_simGE st q k).insertionSort_eq, List.pairwise_map]
  exact (search_sorted_simGE st q k).imp fun h => pyRound3_mono h

/-! ### Persistence: key serialization round-trip -/

theorem digitChar_toNat_sub {d : Nat} (hd : d < 10) :
    (Nat.digitChar d).toNat - 48 = d := by
  interval_cases d <;> rfl

theorem pyInt_pyStr (n : Nat) : pyInt (pyStr n) = n := by
  unfold pyStr pyInt
  by_cases h : n = 0
  · subst h
    rw [if_pos rfl]
    rfl
  · rw [if_neg h]
    show Nat.ofDigits 10
      ((((Nat.digits 10 n).reverse.map Nat.digitChar).map fun c =>
        c.toNat - 48).reverse) = n
    rw [List.map_map, List.map_reverse, List.reverse_reverse]
    have hpt : ∀ d ∈ Nat.digits 10 n,
        ((fun c : Char => c.toNat - 48) ∘ Nat.digitChar) d = id d := by
      intro d hd
      exact digitChar_toNat_sub (Nat.digits_lt_base (by norm_num) hd)
    rw [List.map_congr_left hpt, List.map_id]
    exact Nat.ofDigits_digits 10 n

theorem load_save (st cur : FAISSIndex) :
    cur.load (some st.save.1) (some st.save.2) = st := by
  obtain ⟨d, vs, m⟩ := st
  unfold FAISSIndex.load FAISSIndex.save
  simp only [FAISSIndex.mk.injEq]
  refine ⟨trivial, trivial, ?_⟩
  rw [List.map_map]
  have hpt : ∀ p ∈ m, ((fun p : String × MetaValue => (pyInt p.1, p.2)) ∘
      fun p : Nat × MetaValue => (pyStr p.1, p.2)) p = id p := by
    intro p _
    show (pyInt (pyStr p.1), p.2) = p
    rw [pyInt_pyStr]
  rw [List.map_congr_left hpt, List.map_id]

/-! ### Counting helpers for the fetch pipeline -/

theorem countP_isSome_add_isNone (l : List String) (f : String → Option Vec) :
    l.countP (fun u => (f u).isSome) + l.countP (fun u => (f u).isNone) =
      l.length := by
  induction l with
  | nil => simp
  | cons a t ih =>
    cases h : f a <;> simp [List.countP_cons, h] <;> omega

theorem length_filterMap_pair (l : List String) (f : String → Option Vec) :
    (l.filterMap fun u => (f u).map fun v => (v, u)).length =
      l.countP fun u => (f u).isSome := by
  rw [List.length_filterMap_eq_countP]
  apply List.countP_congr
  intro u _
  cases h : f u <;> simp [h]

/-! ### Path helpers for the dataset index builder -/

theorem pyRelpath_pyJoin (root rest : String) :
    pyRelpath (pyJoin root rest) root = rest := by
  unfold pyRelpath pyJoin
  apply String.ext
  show (root ++ "/" ++ rest).data.drop (root.data.length + 1) = rest.data
  rw [String.data_append, String.data_append]
  have hlen : root.data.length + 1 = (root.data ++ ("/" : String).data).length := by
    rw [List.length_append]
    rfl
  rw [hlen, List.drop_left]

theorem buildIdentifiers_eq (root category : String) (files : List String) :
    buildIdentifiers root category files =
      (files.filter isImageFile).map fun img => category ++ "/" ++ img := by
  unfold buildIdentifiers selectCategoryImages
  apply List.map_congr_left
  intro img _
  have hassoc : pyJoin (pyJoin root category) img =
      pyJoin root (pyJoin category img) := by
    unfold pyJoin
    simp [String.append_assoc]
  rw [hassoc, pyRelpath_pyJoin]
  rfl

/-! ### Claims -/

/-- C1: the similarity reported by `search` does NOT equal
`max(0, 1 - d/2)` on the reported distance. At the failing input — an index
holding the unit vector `[3/5, 4/5]` under identifier `"a"`, queried with the
unit vector `[1, 0]` — the reported distance is the squared Euclidean
distance `4/5` and the reported similarity is `max(0, 1 - (4/5)²/2) = 17/25`,
while the claimed formula on that same distance gives
`max(0, 1 - (4/5)/2) = 3/5` (the true cosine similarity of these unit
vectors, which the code's own comment says it computes). -/
theorem C1_similarity_formula_bug :
    (FAISSIndex.search ⟨2, [[3/5, 4/5]], [(0, ⟨"a", 0⟩)]⟩ [1, 0] 1) =
      [⟨"a", 17/25, 4/5⟩] ∧
    max (0 : ℚ) (1 - (4/5) / 2) = 3/5 ∧
    (17/25 : ℚ) ≠ 3/5 := by
  refine ⟨?_, by norm_num, by norm_num⟩
  norm_num [FAISSIndex.search, faissSearch, sqDist, List.enum, List.enumFrom,
    List.insertionSort, List.orderedInsert, List.lookup, max_def,
    SearchResult.mk.injEq]

/-- C2: for every index state and query, the faiss hit list is ordered by
distance ascending with ties in strictly increasing slot (insertion) order;
the results of `search` are ordered by similarity descending and distance
ascending; and the formatted results of `search_similar_images` are ordered
by similarity descending. -/
theorem C2_search_ordering (st : FAISSIndex) (q : Vec) (k : Nat) :
    ((faissSearch st.vectors q (min k st.vectors.length)).Pairwise fun a b =>
        a.1 < b.1 ∨ (a.1 = b.1 ∧ a.2 < b.2)) ∧
    ((st.search q k).Pairwise fun r1 r2 =>
        r2.similarity ≤ r1.similarity ∧ r1.distance ≤ r2.distance) ∧
    ((search_similar_images st q k).Pairwise fun r1 r2 =>
        r2.similarity ≤ r1.similarity) :=
  ⟨faissSearch_strict _ _ _, search_pairwise _ _ _,
    search_similar_images_pairwise _ _ _⟩

/-- C3: for every index holding `n` vectors and every `k ≥ 1`, `search`
returns exactly `min k n` results, and on an empty index it returns the empty
list (it succeeds rather than failing). -/
theorem C3_search_result_count (st : FAISSIndex) (q : Vec) (k : Nat)
    (_hk : 1 ≤ k) :
    (st.search q k).length = min k st.vectors.length ∧
    (st.vectors = [] → st.search q k = []) := by
  refine ⟨length_search st q k, fun h => ?_⟩
  unfold FAISSIndex.search
  rw [if_pos (by rw [h]; rfl)]

/-- C3 witness: a one-vector index queried with `k = 5` returns
`min 5 1 = 1` result. -/
theorem C3_search_result_count_witness :
    (FAISSIndex.search ⟨2, [[1, 0]], []⟩ [1, 0] 5).length = min 5 1 ∧
    ((⟨2, [[1, 0]], []⟩ : FAISSIndex).vectors = [] →
      FAISSIndex.search ⟨2, [[1, 0]], []⟩ [1, 0] 5 = []) :=
  C3_search_result_count ⟨2, [[1, 0]], []⟩ [1, 0] 5 (by norm_num)

/-- C4: adding equal-length well-dimensioned `V`, `U` succeeds; the size
grows by `len V`, the new vectors occupy the slots after the old ones in
input order, the metadata for slot `current_size + i` is `U i`, and empty
input leaves the index unchanged. -/
theorem C4_add_features_spec (st : FAISSIndex) (V : List Vec)
    (U : List String) (hlen : V.length = U.length)
    (hdim : ∀ v ∈ V, v.length = st.dimension) :
    ∃ st', st.add_features V U = .ok st' ∧
      st'.get_index_size = st.get_index_size + V.length ∧
      st'.vectors = st.vectors ++ V ∧
      (∀ i (hi : i < U.length),
        st'.metadata.lookup (st.vectors.length + i) =
          some ⟨U.get ⟨i, hi⟩, st.vectors.length + i⟩) ∧
      (V = [] → st' = st) := by
  by_cases hV : V = []
  · subst hV
    refine ⟨st, add_features_nil st U, by
      simp [FAISSIndex.get_index_size], by simp, ?_, fun _ => rfl⟩
    intro i hi
    simp only [List.length_nil] at hlen
    omega
  · refine ⟨_, add_features_pos st V U hV hdim, by
      simp [FAISSIndex.get_index_size], rfl, ?_, fun h => absurd h hV⟩
    intro i hi
    exact add_features_lookup st V U _ (add_features_pos st V U hV hdim) hdim
      (fun h => hV (List.length_eq_zero.mp h)) i hi

/-- C4 witness: adding one 1-dimensional vector with one identifier to a
fresh 1-dimensional index. -/
theorem C4_add_features_spec_witness :
    ∃ st', FAISSIndex.add_features ⟨1, [], []⟩ [[5]] ["u"] = .ok st' ∧
      st'.get_index_size =
        FAISSIndex.get_index_size ⟨1, [], []⟩ + [[(5 : ℚ)]].length ∧
      st'.vectors = (⟨1, [], []⟩ : FAISSIndex).vectors ++ [[5]] ∧
      (∀ i (hi : i < ["u"].length),
        st'.metadata.lookup ((⟨1, [], []⟩ : FAISSIndex).vectors.length + i) =
          some ⟨["u"].get ⟨i, hi⟩,
            (⟨1, [], []⟩ : FAISSIndex).vectors.length + i⟩) ∧
      ([[(5 : ℚ)]] = [] → st' = ⟨1, [], []⟩) :=
  C4_add_features_spec ⟨1, [], []⟩ [[5]] ["u"] rfl
    (by intro v hv; rw [List.mem_singleton] at hv; subst hv; rfl)

/-- C5 counterexample: `add_features` called with ONE vector but TWO
identifiers (a malformed, mismatched call) does not fail: it succeeds and
updates the index, recording a metadata entry for slot 1 that has no stored
vector. -/
theorem C5_counterexample :
    FAISSIndex.add_features ⟨1, [], []⟩ [[5]] ["a", "b"] =
      .ok ⟨1, [[5]], [(0, ⟨"a", 0⟩), (1, ⟨"b", 1⟩)]⟩ ∧
    (⟨1, [[5]], [(0, ⟨"a", 0⟩), (1, ⟨"b", 1⟩)]⟩ : FAISSIndex) ≠
      ⟨1, [], []⟩ := by
  refine ⟨rfl, ?_⟩
  intro h
  rw [FAISSIndex.mk.injEq] at h
  exact absurd h.2.1 (by simp)

/-- C5 amended: a vector of the wrong dimension makes the call fail
immediately (the faiss `add` raise is surfaced, the index unchanged), but a
length mismatch between the vectors and the identifiers is NOT detected: the
call succeeds and appends all vectors, recording one metadata entry per
identifier. -/
theorem C5_amended_malformed_add (st : FAISSIndex) (V : List Vec)
    (U : List String) (hne : V ≠ []) :
    ((∃ v ∈ V, v.length ≠ st.dimension) →
      st.add_features V U = .error "faiss add: vector dimension mismatch") ∧
    ((∀ v ∈ V, v.length = st.dimension) →
      ∃ st', st.add_features V U = .ok st' ∧
        st'.vectors = st.vectors ++ V) := by
  constructor
  · rintro ⟨v, hv, hvd⟩
    unfold FAISSIndex.add_features
    rw [if_neg (fun h => hne (List.length_eq_zero.mp h))]
    have hany : V.any (fun v => v.length != st.dimension) = true := by
      rw [List.any_eq_true]
      exact ⟨v, hv, by simpa using hvd⟩
    rw [if_pos hany]
  · intro hdim
    exact ⟨_, add_features_pos st V U hne hdim, rfl⟩

/-- C5 witness: on a 1-dimensional index, adding a 2-component vector errors;
adding a 1-component vector with no identifiers succeeds. -/
theorem C5_amended_malformed_add_witness :
    ((∃ v ∈ [[(5 : ℚ), 6]], List.length v ≠
        (⟨1, [], []⟩ : FAISSIndex).dimension) →
      FAISSIndex.add_features ⟨1, [], []⟩ [[5, 6]] [] =
        .error "faiss add: vector dimension mismatch") ∧
    ((∀ v ∈ [[(5 : ℚ), 6]], List.length v =
        (⟨1, [], []⟩ : FAISSIndex).dimension) →
      ∃ st', FAISSIndex.add_features ⟨1, [], []⟩ [[5, 6]] [] = .ok st' ∧
        st'.vectors = (⟨1, [], []⟩ : FAISSIndex).vectors ++ [[5, 6]]) :=
  C5_amended_malformed_add ⟨1, [], []⟩ [[5, 6]] [] (by simp)

/-- C6: saving any index state and loading the files into any (e.g. fresh)
index restores the state exactly, so every query returns the same results
(same ranking, same identifiers, same similarities — exact equality, hence
within any tolerance). -/
theorem C6_save_load_roundtrip (st cur : FAISSIndex) (q : Vec) (k : Nat) :
    cur.load (some st.save.1) (some st.save.2) = st ∧
    (cur.load (some st.save.1) (some st.save.2)).search q k =
      st.search q k := by
  have h := load_save st cur
  exact ⟨h, by rw [h]⟩

/-- C7: loading when no index file exists does not fail: it yields an empty
index (size 0) on which queries return the empty list and well-dimensioned
inserts succeed. -/
theorem C7_load_missing_file (st : FAISSIndex) (q : Vec) (k : Nat)
    (V : List Vec) (U : List String)
    (hdim : ∀ v ∈ V, v.length = FEATURE_DIMENSION) :
    (st.load none none).get_index_size = 0 ∧
    (st.load none none).search q k = [] ∧
    ∃ st', (st.load none none).add_features V U = .ok st' ∧
      st'.get_index_size = V.length := by
  refine ⟨rfl, by simp [FAISSIndex.load, FAISSIndex.search], ?_⟩
  by_cases hV : V = []
  · subst hV
    exact ⟨_, add_features_nil _ U, rfl⟩
  · refine ⟨_, add_features_pos _ V U hV hdim, ?_⟩
    simp [FAISSIndex.get_index_size, FAISSIndex.load]

/-- C7 witness: loading nothing then inserting one 4096-dimensional vector. -/
theorem C7_load_missing_file_witness :
    (FAISSIndex.load ⟨7, [[1]], [(0, ⟨"x", 0⟩)]⟩ none none).get_index_size
      = 0 ∧
    (FAISSIndex.load ⟨7, [[1]], [(0, ⟨"x", 0⟩)]⟩ none none).search [1] 3
      = [] ∧
    ∃ st', (FAISSIndex.load ⟨7, [[1]], [(0, ⟨"x", 0⟩)]⟩ none
        none).add_features [List.replicate 4096 1] ["u"] = .ok st' ∧
      st'.get_index_size = [List.replicate 4096 (1 : ℚ)].length :=
  C7_load_missing_file ⟨7, [[1]], [(0, ⟨"x", 0⟩)]⟩ [1] 3
    [List.replicate 4096 1] ["u"]
    (by intro v hv; rw [List.mem_singleton] at hv; subst hv;
        rw [List.length_replicate]; rfl)

/-- C8: the fetch pipeline, run on N candidate urls of which m fail at some
stage (fetch returns none), indexes exactly N - m items through its single
bulk add and returns N - m — whatever completion order the thread pool
produced. Each url is submitted exactly once; failures are dropped, never
retried. -/
theorem C8_pipeline_counts (st : FAISSIndex) (image_urls : List String)
    (fetch : String → Option Vec) (order : List String)
    (hperm : order.Perm image_urls)
    (hdim : ∀ u f, fetch u = some f → f.length = st.dimension) :
    (index_images_from_query st image_urls fetch order).2 =
      image_urls.length - image_urls.countP (fun u => (fetch u).isNone) ∧
    (index_images_from_query st image_urls fetch order).1.get_index_size =
      st.get_index_size +
        (image_urls.length -
          image_urls.countP fun u => (fetch u).isNone) := by
  have hcount : image_urls.countP (fun u => (fetch u).isSome) =
      image_urls.length - image_urls.countP (fun u => (fetch u).isNone) := by
    have h := countP_isSome_add_isNone image_urls fetch
    omega
  have hlenvalid : (order.filterMap fun u =>
      (fetch u).map fun f => (f, u)).length =
      image_urls.length - image_urls.countP (fun u => (fetch u).isNone) := by
    rw [length_filterMap_pair, hperm.countP_eq, hcount]
  unfold index_images_from_query
  by_cases hurls : image_urls.isEmpty
  · rw [if_pos hurls]
    rw [List.isEmpty_iff] at hurls
    subst hurls
    simp
  · rw [if_neg hurls]
    simp only []
    by_cases hv : (order.filterMap fun u =>
        (fetch u).map fun f => (f, u)).isEmpty
    · rw [if_pos hv]
      rw [List.isEmpty_iff] at hv
      rw [hv] at hlenvalid
      simp only [List.length_nil] at hlenvalid
      refine ⟨hlenvalid, ?_⟩
      show st.get_index_size = st.get_index_size +
        (image_urls.length - image_urls.countP fun u => (fetch u).isNone)
      omega
    · rw [if_neg hv]
      have hVne : (order.filterMap fun u =>
          (fetch u).map fun f => (f, u)).map Prod.fst ≠ [] := by
        intro h
        rw [List.map_eq_nil_iff] at h
        rw [List.isEmpty_iff] at hv
        exact hv h
      have hdim' : ∀ v ∈ (order.filterMap fun u =>
          (fetch u).map fun f => (f, u)).map Prod.fst,
          v.length = st.dimension := by
        intro v hvv
        rcases List.mem_map.mp hvv with ⟨⟨f, u⟩, hmem, rfl⟩
        rcases List.mem_filterMap.mp hmem with ⟨u', _, he⟩
        cases hf : fetch u' with
        | none => rw [hf] at he; simp at he
        | some g =>
          rw [hf] at he
          simp only [Option.map_some', Option.some.injEq, Prod.mk.injEq] at he
          rw [← he.1]
          exact hdim u' g hf
      rw [add_features_pos st _ _ hVne hdim']
      simp only []
      refine ⟨by rw [hlenvalid], ?_⟩
      simp only [FAISSIndex.get_index_size, List.length_append,
        List.length_map]
      rw [hlenvalid]

/-- C8 witness: two candidates of which one fails, processed in reversed
completion order, index 1 item and return 1. -/
theorem C8_pipeline_counts_witness :
    (index_images_from_query ⟨1, [], []⟩ ["x", "bad"]
        (fun u => if u = "x" then some [1] else none) ["bad", "x"]).2 =
      ["x", "bad"].length - (["x", "bad"].countP fun u =>
        ((if u = "x" then some [(1 : ℚ)] else none) : Option Vec).isNone) ∧
    (index_images_from_query ⟨1, [], []⟩ ["x", "bad"]
        (fun u => if u = "x" then some [1] else none)
        ["bad", "x"]).1.get_index_size =
      FAISSIndex.get_index_size ⟨1, [], []⟩ +
        (["x", "bad"].length - (["x", "bad"].countP fun u =>
          ((if u = "x" then some [(1 : ℚ)] else none) : Option Vec).isNone)) :=
  C8_pipeline_counts ⟨1, [], []⟩ ["x", "bad"]
    (fun u => if u = "x" then some [1] else none) ["bad", "x"]
    (List.Perm.swap "x" "bad" [])
    (by intro u f h
        by_cases hu : u = "x" <;> simp [hu] at h
        rw [← h]
        rfl)

/-- C9 counterexample: the file "a.JPG" has extension jpg when compared
case-insensitively, so the claimed rule selects it, but the code's
case-sensitive suffix filter drops it. -/
theorem C9_counterexample :
    claimedImageFile "a.JPG" = true ∧ selectCategoryImages ["a.JPG"] = [] := by
  constructor
  · decide
  · decide

/-- C9 amended: a directory entry is selected iff it ends with ".jpg",
".jpeg" or ".png" compared case-SENSITIVELY, and the identifier recorded for
every selected file is its path relative to the dataset root
(`category/filename`). -/
theorem C9_amended_selection (root category f : String)
    (files : List String) :
    (f ∈ selectCategoryImages files ↔ f ∈ files ∧
      (pyEndsWith f ".jpg" || pyEndsWith f ".jpeg" ||
        pyEndsWith f ".png") = true) ∧
    buildIdentifiers root category files =
      (files.filter isImageFile).map fun img => category ++ "/" ++ img := by
  constructor
  · unfold selectCategoryImages
    rw [List.mem_filter]
    unfold isImageFile
    exact Iff.rfl
  · exact buildIdentifiers_eq root category files

/-- C10: a slot present in vector storage but absent from the metadata map
does not make `search` fail: the full `min k n` results are still returned,
and the result drawn from the orphaned slot carries the empty string as its
identifier. -/
theorem C10_missing_metadata_url (st : FAISSIndex) (q : Vec) (k : Nat)
    (d : ℚ) (slot : Nat)
    (hmem : (d, slot) ∈ faissSearch st.vectors q (min k st.vectors.length))
    (hnone : st.metadata.lookup slot = none) :
    (st.search q k).length = min k st.vectors.length ∧
    (⟨"", max 0 (1 - d ^ 2 / 2), d⟩ : SearchResult) ∈ st.search q k := by
  refine ⟨length_search st q k, ?_⟩
  unfold FAISSIndex.search
  have hn0 : ¬st.vectors.length = 0 := by
    intro h0
    rw [List.length_eq_zero] at h0
    rw [h0] at hmem
    simp [faissSearch] at hmem
  rw [if_neg hn0]
  apply List.mem_map.mpr
  exact ⟨(d, slot), hmem, by simp [hnone]⟩

/-- C10 witness: a one-vector index with an empty metadata dict returns its
hit with the empty identifier. -/
theorem C10_missing_metadata_url_witness :
    (FAISSIndex.search ⟨2, [[3/5, 4/5]], []⟩ [1, 0] 1).length =
      min 1 (⟨2, [[3/5, 4/5]], []⟩ : FAISSIndex).vectors.length ∧
    (⟨"", max 0 (1 - (4/5 : ℚ) ^ 2 / 2), 4/5⟩ : SearchResult) ∈
      FAISSIndex.search ⟨2, [[3/5, 4/5]], []⟩ [1, 0] 1 :=
  C10_missing_metadata_url ⟨2, [[3/5, 4/5]], []⟩ [1, 0] 1 (4/5) 0
    (by norm_num [faissSearch, sqDist, List.enum, List.enumFrom,
      List.insertionSort, List.orderedInsert])
    rfl

end ImageRetrieval
